import Mathlib

/-!
Shallow embedding of the PaddleX model-lifecycle controller
(`paddlex/cv/models/base.py` and `paddlex/cv/models/classifier.py`).

The external numeric engine (paddle), the pruning library (paddleslim)
and the data pipeline are opaque collaborators: their outputs enter the
model as oracle parameters (per-epoch primary-metric values, per-batch
metric dictionaries, per-image score vectors, pruning ratios).  File
system writes and the epoch loop are modelled as event traces so that
ordering claims can be stated.  Scalar metrics and scores are embedded
as rationals.
-/

namespace PaddleX

/-- Mode argument of `build_data_loader` / `run` (the string
`'train'` / `'eval'` / `'test'` in the source). -/
inductive Mode
  | train
  | eval
  | test
deriving DecidableEq, Repr

/-- `self.status` values: `'Normal'`, `'Pruned'`, `'Infer'`. -/
inductive Status
  | Normal
  | Pruned
  | Infer
deriving DecidableEq, Repr

/-- The slice of the dataset collaborator contract that
`build_data_loader` reads: `num_samples`, `shuffle`, `num_workers`. -/
structure Dataset where
  num_samples : Nat
  shuffle : Bool
  num_workers : Nat
deriving DecidableEq, Repr

/-- The configuration of the `DistributedBatchSampler` + `DataLoader`
pair produced by `build_data_loader`. -/
structure LoaderCfg where
  batch_size_each_card : Nat
  shuffle : Bool
  drop_last : Bool
  num_workers : Nat
deriving DecidableEq, Repr

/-- Modelled from the spec: `get_single_card_bs` lives in
`paddlex/utils` (not under `src/`); per the spec (§4.1, §6) it turns a
total batch size into the effective per-worker batch size by dividing
by the number of participating workers. -/
def get_single_card_bs (nranks batch_size : Nat) : Nat :=
  batch_size / nranks

/-- `BaseModel.build_data_loader` (base.py:163-197).  In eval mode the
size check compares `num_samples` with the per-card batch size; in
train mode it compares with the *total* batch size (the `batch_size`
variable is only reassigned inside the `mode == 'eval'` branch).  The
size check precedes construction of the sampler and loader, so on the
error path no loader configuration is built.  `drop_last` is
`mode == 'train'` and `shuffle` is taken from the dataset. -/
def build_data_loader (nranks : Nat) (dataset : Dataset)
    (batch_size : Nat) (mode : Mode) : Except String LoaderCfg :=
  let batch_size_each_card := get_single_card_bs nranks batch_size
  let checked_batch_size :=
    if mode = Mode.eval then batch_size_each_card else batch_size
  if dataset.num_samples < checked_batch_size then
    Except.error "The volume of datset must be larger than batch size."
  else
    Except.ok
      { batch_size_each_card := batch_size_each_card
        shuffle := dataset.shuffle
        drop_last := mode = Mode.train
        num_workers := dataset.num_workers }

/-- Modelled from the spec: `TrainingStats` lives in `paddlex/utils`
(not under `src/`).  Per §4.3 it accumulates a running mean per named
metric across all batches seen since the last reset, tracking each key
independently (keys may appear or disappear across batches).  State:
one `(key, sum, count)` triple per key seen so far, in order of first
appearance. -/
def tsAdd (st : List (String × ℚ × Nat)) (k : String) (v : ℚ) :
    List (String × ℚ × Nat) :=
  match st with
  | [] => [(k, v, 1)]
  | (k0, s0, c0) :: rest =>
    if k0 = k then (k0, s0 + v, c0 + 1) :: rest
    else (k0, s0, c0) :: tsAdd rest k v

/-- Modelled from the spec: `TrainingStats.update(batch_metrics)` folds
one batch of named scalar values into the accumulator, each key
independently. -/
def tsUpdate (st : List (String × ℚ × Nat)) (batch : List (String × ℚ)) :
    List (String × ℚ × Nat) :=
  batch.foldl (fun acc kv => tsAdd acc kv.1 kv.2) st

/-- Modelled from the spec: `TrainingStats.get()` returns the per-key
mean mapping, in key first-appearance order. -/
def tsGet (st : List (String × ℚ × Nat)) : List (String × ℚ) :=
  st.map (fun kvc => (kvc.1, kvc.2.1 / (kvc.2.2 : ℚ)))

/-- Lookup of a key in the accumulator state. -/
def tsLookup (k : String) (st : List (String × ℚ × Nat)) :
    Option (ℚ × Nat) :=
  match st with
  | [] => none
  | (k0, s0, c0) :: rest => if k0 = k then some (s0, c0) else tsLookup k rest

/-- Lookup of a key in an association list of metric values. -/
def metricLookup (k : String) (m : List (String × ℚ)) : Option ℚ :=
  match m with
  | [] => none
  | (k0, v0) :: rest => if k0 = k then some v0 else metricLookup k rest

/-- A network parameter as `prune` sees it: a name and a shape
(`param.name`, `param.shape`). -/
structure Param where
  name : String
  shape : List Nat
deriving DecidableEq, Repr

/-- The attributes of `BaseModel` (base.py:39-56) that the lifecycle
operations under verification read or write.  `optimizer` is an opaque
reference (identity token) to the external optimizer object;
`net_params` is the parameter list of the opaque network;
`netMode` records the train/eval mode toggle of the network;
`pruner` holds the pruner class name and input template when present;
`has_eval_details` mirrors `hasattr(self, 'eval_details')`. -/
structure ModelState where
  model_type : String
  num_classes : Nat
  labels : List String
  optimizer : Nat
  completed_epochs : Nat
  status : Status
  netMode : Mode
  net_params : List Param
  pruner : Option String
  pruner_inputs : List Nat
  pruning_ratios : Option (List (String × ℚ))
  eval_metrics : Option (List (String × ℚ))
  eval_data_loader : Option LoaderCfg
  has_eval_details : Bool
  test_inputs : Option (List Int)
deriving DecidableEq, Repr

/-- The metadata document produced by `get_model_info`
(base.py:83-121), restricted to the claim-relevant fields.  The
`eval_metrics` attribute keeps only the primary metric (first key)
reduced to a plain numeric value; `status` is added by the caller
(`save_model` stores `self.status`, `_export_inference_model` forces
`'Infer'`). -/
structure ModelInfo where
  num_classes : Nat
  labels : List String
  primary_eval_metric : Option (String × ℚ)
  completed_epochs : Nat
deriving DecidableEq, Repr

/-- `BaseModel.get_model_info` (base.py:83-121): the `try` block keeps
the first key of `self.eval_metrics` with its value; on any failure
(e.g. `eval_metrics` is `None` or empty) the attribute is absent. -/
def get_model_info (s : ModelState) : ModelInfo :=
  { num_classes := s.num_classes
    labels := s.labels
    primary_eval_metric :=
      match s.eval_metrics with
      | none => none
      | some m => m.head?
    completed_epochs := s.completed_epochs }

/-- The `prune.yml` document of `get_pruning_info` (base.py:123-128):
pruner class name, pruning ratios, pruner input template. -/
structure PruningInfo where
  pruner : String
  pruning_ratios : Option (List (String × ℚ))
  pruner_inputs : List Nat
deriving DecidableEq, Repr

/-- `BaseModel.get_pruning_info` (base.py:123-128). -/
def get_pruning_info (s : ModelState) : PruningInfo :=
  { pruner := s.pruner.getD "NoneType"
    pruning_ratios := s.pruning_ratios
    pruner_inputs := s.pruner_inputs }

/-- One file written into a checkpoint / export directory, in program
order.  `modelYml` carries the metadata document together with the
status field the writer stored into it. -/
inductive FileWrite
  | weights
  | optState
  | modelYml (info : ModelInfo) (status : Status)
  | evalDetails
  | pruneYml (info : PruningInfo)
  | staticModel
  | successMarker
deriving DecidableEq, Repr

/-- `BaseModel.save_model` (base.py:130-161) as the ordered list of
files it writes into `save_dir`: `model.pdparams`, `model.pdopt`,
`model.yml` (metadata plus `self.status`), `eval_details.json` when the
attribute exists, `prune.yml` when the status is `'Pruned'` and a
pruner is attached, and finally the zero-byte `.success` marker. -/
def save_model_writes (s : ModelState) : List FileWrite :=
  [FileWrite.weights, FileWrite.optState,
   FileWrite.modelYml (get_model_info s) s.status]
  ++ (if s.has_eval_details then [FileWrite.evalDetails] else [])
  ++ (if s.status = Status.Pruned ∧ s.pruner.isSome then
        [FileWrite.pruneYml (get_pruning_info s)] else [])
  ++ [FileWrite.successMarker]

/-- `BaseModel._export_inference_model` (base.py:430-455): switches the
network to eval mode, stores the test input spec, serializes the traced
static graph, writes `prune.yml` when the status is `'Pruned'`, writes
`model.yml` with the status field forced to `'Infer'`, and finally the
`.success` marker.  Returns the write trace together with the updated
live model object. -/
def export_inference_model (s : ModelState) (image_shape : List Int) :
    List FileWrite × ModelState :=
  let s1 : ModelState :=
    { s with netMode := Mode.eval
             test_inputs := some ([-1, 3] ++ image_shape) }
  let writes :=
    [FileWrite.staticModel]
    ++ (if s1.status = Status.Pruned then
          [FileWrite.pruneYml (get_pruning_info s1)] else [])
    ++ [FileWrite.modelYml (get_model_info s1) Status.Infer,
        FileWrite.successMarker]
  (writes, s1)

/-- One step of the evaluation loop body: `self.run(self.net, data,
mode='eval')` executed inside the `with paddle.no_grad():` block.  The
flags record, per batch, whether gradient tracking was disabled and
which mode the runner was invoked in. -/
structure EvalBatchRun where
  noGrad : Bool
  mode : Mode
deriving DecidableEq, Repr

/-- The value returned by `BaseClassifier.evaluate`: the aggregated
metric mapping and, when `return_details` was set, the list of raw
per-batch prediction arrays (indices into the oracle batch list). -/
structure EvalOutcome where
  metrics : List (String × ℚ)
  details : Option (List Nat)
deriving DecidableEq, Repr

/-- `BaseClassifier.evaluate` (classifier.py:241-284).  The per-batch
metric dictionaries (the runner outputs with the `prediction` entry
already popped) are supplied by the oracle list `batchOutputs`, one
entry per batch yielded by the evaluation loader.  The function:
switches the network to eval mode, builds the evaluation loader, stores
it in `self.eval_data_loader`, iterates every batch under `no_grad`
feeding a fresh `TrainingStats`, and returns the per-key means (plus
the raw predictions of every batch when details are requested).  On the
loader size-check failure the exception propagates after the network
was already switched to eval mode. -/
def evaluate (nranks : Nat) (s : ModelState) (eval_dataset : Dataset)
    (batch_size : Nat) (return_details : Bool)
    (batchOutputs : List (List (String × ℚ))) :
    ModelState × List EvalBatchRun × Except String EvalOutcome :=
  let s1 : ModelState := { s with netMode := Mode.eval }
  match build_data_loader nranks eval_dataset batch_size Mode.eval with
  | Except.error e => (s1, [], Except.error e)
  | Except.ok loader =>
    let s2 : ModelState := { s1 with eval_data_loader := some loader }
    let runs : List EvalBatchRun :=
      batchOutputs.map (fun _ => { noGrad := true, mode := Mode.eval })
    let stats := batchOutputs.foldl tsUpdate []
    let outcome : EvalOutcome :=
      { metrics := tsGet stats
        details :=
          if return_details then some (List.range batchOutputs.length)
          else none }
    (s2, runs, Except.ok outcome)

/-- The spec data model §3: `TrainingState` bundles the completed epoch
count, the optimizer reference, the best-metric value with its epoch,
and the early-stop counter.  In the source the first two live on the
model object and the rest are locals of `train_loop`; `LoopLocals`
carries those locals. -/
structure LoopLocals where
  best_accuracy : ℚ
  best_model_epoch : Int
  early_stop_counter : Nat
deriving DecidableEq, Repr

/-- The spec-level `TrainingState` view of a model object together with
the `train_loop` locals. -/
structure TrainingState where
  completed_epochs : Nat
  optimizer : Nat
  best_accuracy : ℚ
  best_model_epoch : Int
  early_stop_counter : Nat
deriving DecidableEq, Repr

/-- Projection assembling the spec-level `TrainingState` from the model
object and the `train_loop` locals.  `evaluate` receives no reference
to the locals, so passing them through unchanged is exactly what the
source does. -/
def trainingStateOf (s : ModelState) (loc : LoopLocals) : TrainingState :=
  { completed_epochs := s.completed_epochs
    optimizer := s.optimizer
    best_accuracy := loc.best_accuracy
    best_model_epoch := loc.best_model_epoch
    early_stop_counter := loc.early_stop_counter }

/-- The mutable values threaded through the epoch loop of
`train_loop` (base.py:253-256 and `self.completed_epochs` /
`self.eval_metrics`): loop locals `best_accuracy` (initialised to
`-1.0`) and `best_model_epoch` (initialised to `-1`), plus the model
attributes the loop mutates. -/
structure TLState where
  completed_epochs : Nat
  best_accuracy : ℚ
  best_model_epoch : Int
  eval_metrics : Option ℚ
deriving DecidableEq, Repr

/-- Observable actions of one `train_loop` run.  `finishEpoch i c`
records the completed-epoch counter increment at the end of epoch `i`
(new counter value `c`); `evalRun i v` records an evaluation returning
primary-metric value `v`; `saveBest e` / `saveEpoch e` record
`save_model` calls targeting the fixed `best_model` directory and the
`epoch_e` directory. -/
inductive TLEvent
  | finishEpoch (i : Nat) (completed : Nat)
  | evalRun (i : Nat) (value : ℚ)
  | saveBest (epoch : Nat)
  | saveEpoch (epoch : Nat)
deriving DecidableEq, Repr

/-- Static configuration of one `train_loop` call.  `evalSamples` is
`some n` when an evaluation dataset with `n` samples was supplied,
`none` when `eval_dataset is None`. -/
structure TLConfig where
  num_epochs : Nat
  save_interval_epochs : Nat
  localRank : Nat
  early_stop : Bool
  evalSamples : Option Nat
deriving DecidableEq, Repr

/-- The body of one iteration of the epoch loop of
`BaseModel.train_loop` (base.py:257-350).  The per-batch training work
(forward, backward, optimizer step, LR schedule, timing, step logging)
only touches the opaque numeric engine and the logs, so it is not part
of the observable state.  After the inner loop: the completed-epoch
counter is incremented; on a save epoch (`(i+1) % save_interval == 0`
or last epoch) an evaluation runs when an evaluation set with positive
size is present, rank 0 compares the primary metric against
`best_accuracy` and saves the best model on strict improvement, rank 0
always saves the epoch checkpoint, and the early-stop policy (external
`EarlyStop`, its stop decision supplied by the oracle `esStop`) may
break the loop when enabled and an evaluation set was supplied.
`metricAt i` is the oracle for the primary metric (first key of the
ordered mapping returned by `evaluate`) of the evaluation run at epoch
`i`.  Returns the new state, the events of this epoch, and the break
flag. -/
def epochStep (cfg : TLConfig) (metricAt : Nat → ℚ) (esStop : Nat → Bool)
    (i : Nat) (st : TLState) : TLState × List TLEvent × Bool :=
  let st1 : TLState := { st with completed_epochs := st.completed_epochs + 1 }
  let ev0 : List TLEvent := [TLEvent.finishEpoch i st1.completed_epochs]
  if (i + 1) % cfg.save_interval_epochs = 0 ∨ i = cfg.num_epochs - 1 then
    let evalStep : TLState × List TLEvent :=
      match cfg.evalSamples with
      | some n =>
        if 0 < n then
          let v := metricAt i
          let st2 : TLState := { st1 with eval_metrics := some v }
          if cfg.localRank = 0 then
            if st2.best_accuracy < v then
              ({ st2 with best_accuracy := v
                          best_model_epoch := ((i : Int) + 1) },
               [TLEvent.evalRun i v, TLEvent.saveBest (i + 1)])
            else (st2, [TLEvent.evalRun i v])
          else (st2, [TLEvent.evalRun i v])
        else (st1, [])
      | none => (st1, [])
    let st3 := evalStep.1
    let ev1 := evalStep.2
    if cfg.localRank = 0 then
      let stop := cfg.evalSamples.isSome && cfg.early_stop && esStop i
      (st3, ev0 ++ ev1 ++ [TLEvent.saveEpoch (i + 1)], stop)
    else (st3, ev0 ++ ev1, false)
  else (st1, ev0, false)

/-- The epoch loop of `train_loop` over the listed epoch indices,
with early-stop break. -/
def runEpochs (cfg : TLConfig) (metricAt : Nat → ℚ) (esStop : Nat → Bool) :
    List Nat → TLState → TLState × List TLEvent
  | [], st => (st, [])
  | i :: rest, st =>
    let step := epochStep cfg metricAt esStop i st
    if step.2.2 then (step.1, step.2.1)
    else
      let tail := runEpochs cfg metricAt esStop rest step.1
      (tail.1, step.2.1 ++ tail.2)

/-- The initial loop state of `train_loop` (base.py:244, 253-255):
`start_epoch = self.completed_epochs`, `best_accuracy = -1.0`,
`best_model_epoch = -1`. -/
def initTLState (completed : Nat) : TLState :=
  { completed_epochs := completed
    best_accuracy := -1
    best_model_epoch := -1
    eval_metrics := none }

/-- `BaseModel.train_loop` (base.py:199-350) reduced to its observable
lifecycle: it first builds the training data loader (base.py:238-239) —
a dataset smaller than the batch size raises there, before any epoch
runs — and then iterates the epoch loop from `start_epoch =
self.completed_epochs` to `num_epochs - 1`. -/
def train_loop (nranks : Nat) (cfg : TLConfig) (train_dataset : Dataset)
    (train_batch_size : Nat) (metricAt : Nat → ℚ) (esStop : Nat → Bool)
    (completed : Nat) : Except String (TLState × List TLEvent) :=
  match build_data_loader nranks train_dataset train_batch_size Mode.train with
  | Except.error e => Except.error e
  | Except.ok _ =>
    Except.ok (runEpochs cfg metricAt esStop
      (List.range' completed (cfg.num_epochs - completed))
      (initTLState completed))

/-- Observable actions of `BaseModel.prune`: FLOPs computations
(`paddleslim.analysis.flops`), the structured prune
(`sensitive_prune` with its skip list), and the optional
`save_model`. -/
inductive PruneEvent
  | computeFlops
  | applyPrune (skip_vars : List String)
  | saveModel
deriving DecidableEq, Repr

/-- `BaseModel.prune` (base.py:398-428).  A model whose status is
already `'Pruned'` raises immediately — before the pre-pruning FLOPs
computation, the skip-list construction and the prune itself — leaving
the model object untouched.  Otherwise: pre-pruning FLOPs; every
parameter whose leading shape dimension is `<= 8` goes on the skip
list; `sensitive_prune` (external, its resulting per-layer ratios
supplied by the oracle `ratiosOf`) prunes and yields
`self.pruning_ratios`; post-pruning FLOPs; status transitions to
`'Pruned'`; the model is saved when a directory was given.  Returns
the event trace, the resulting model object (the input object itself
on the error path), and the error message when one was raised. -/
def prune (s : ModelState) (pruned_flops : ℚ)
    (save_dir : Option String)
    (ratiosOf : List String → List (String × ℚ)) :
    List PruneEvent × ModelState × Option String :=
  if s.status = Status.Pruned then
    ([], s, some "A pruned model cannot be done model pruning again!")
  else
    let skip_vars :=
      ((s.net_params.filter (fun p => p.shape.headD 0 ≤ 8)).map Param.name)
    let s1 : ModelState :=
      { s with pruning_ratios := some (ratiosOf skip_vars)
               status := Status.Pruned }
    let evs :=
      [PruneEvent.computeFlops, PruneEvent.applyPrune skip_vars,
       PruneEvent.computeFlops]
      ++ (match save_dir with
          | some _ => [PruneEvent.saveModel]
          | none => [])
    (evs, s1, none)

/-- The index comparison realising `np.argsort` on a score vector:
ascending by score, ties resolved by index so that the relation is
total and antisymmetric (`np.argsort` leaves tie order unspecified;
any concrete resolution satisfies the ordering properties under
verification). -/
def idxLe (scores : List ℚ) (i j : Nat) : Prop :=
  scores.getD i 0 < scores.getD j 0 ∨
    (scores.getD i 0 = scores.getD j 0 ∧ i ≤ j)

instance (scores : List ℚ) : DecidableRel (idxLe scores) := fun i j => by
  unfold idxLe; infer_instance

instance (scores : List ℚ) : IsTotal Nat (idxLe scores) where
  total i j := by
    unfold idxLe
    rcases lt_trichotomy (scores.getD i 0) (scores.getD j 0) with h | h | h
    · exact Or.inl (Or.inl h)
    · rcases Nat.le_total i j with hij | hij
      · exact Or.inl (Or.inr ⟨h, hij⟩)
      · exact Or.inr (Or.inr ⟨h.symm, hij⟩)
    · exact Or.inr (Or.inl h)

instance (scores : List ℚ) : IsTrans Nat (idxLe scores) where
  trans i j k hij hjk := by
    unfold idxLe at *
    rcases hij with h1 | ⟨h1, h1i⟩
    · rcases hjk with h2 | ⟨h2, _⟩
      · exact Or.inl (h1.trans h2)
      · exact Or.inl (h2 ▸ h1)
    · rcases hjk with h2 | ⟨h2, h2i⟩
      · exact Or.inl (h1 ▸ h2)
      · exact Or.inr ⟨h1.trans h2, h1i.trans h2i⟩

/-- `np.argsort(pred)[::-1]` (classifier.py:341): the indices
`0 .. pred.length - 1` sorted ascending by score, then reversed, so the
result lists indices by descending score. -/
def argsortDesc (scores : List ℚ) : List Nat :=
  (List.insertionSort (idxLe scores) (List.range scores.length)).reverse

/-- One entry of a per-image prediction result (classifier.py:342-346):
`category_id`, `category` looked up in the label list, and the raw
score of that category. -/
structure PredEntry where
  category_id : Nat
  category : String
  score : ℚ
deriving DecidableEq, Repr

/-- `BaseClassifier._postprocess` restricted to one image row
(classifier.py:338-348): take the `true_topk` highest-scoring indices
in descending order and build the entry list. -/
def postprocessOne (scores : List ℚ) (true_topk : Nat)
    (labels : List String) : List PredEntry :=
  ((argsortDesc scores).take true_topk).map
    (fun l => { category_id := l
                category := labels.getD l ""
                score := scores.getD l 0 })

/-- The shape of `predict`'s `img_file` argument: a single image
(path or array) or a list of images. -/
inductive PredictInput (α : Type)
  | single (img : α)
  | batch (imgs : List α)

/-- The shape of `predict`'s return value: one per-image result for a
single input, a list of per-image results for a list input. -/
inductive PredictOutput
  | one (r : List PredEntry)
  | many (rs : List (List PredEntry))
deriving DecidableEq

/-- `BaseClassifier.predict` (classifier.py:286-324) with the opaque
network + softmax abstracted by the oracle `netScores`, which maps an
image to its per-class score row of the `prediction` matrix.  The
effective top-k is `min(self.num_classes, topk)`; a single image is
wrapped into a one-element batch and unwrapped (`prediction[0]`) at
the end. -/
def predict {α : Type} (num_classes : Nat) (labels : List String)
    (netScores : α → List ℚ) (input : PredictInput α) (topk : Nat) :
    PredictOutput :=
  let true_topk := min num_classes topk
  let images : List α :=
    match input with
    | PredictInput.single img => [img]
    | PredictInput.batch imgs => imgs
  let preds := images.map
    (fun im => postprocessOne (netScores im) true_topk labels)
  match input with
  | PredictInput.single _ => PredictOutput.one (preds.headD [])
  | PredictInput.batch _ => PredictOutput.many preds

/-- The `(epoch, new counter value)` pairs of the `finishEpoch` events
of a trace, in order. -/
def finishEvents (evs : List TLEvent) : List (Nat × Nat) :=
  evs.filterMap (fun e =>
    match e with
    | TLEvent.finishEpoch i c => some (i, c)
    | _ => none)

/-- The epochs at which a best-model checkpoint was written, in
order. -/
def bestSaves (evs : List TLEvent) : List Nat :=
  evs.filterMap (fun e =>
    match e with
    | TLEvent.saveBest e0 => some e0
    | _ => none)

/-- Whether a `train_loop` run returned normally. -/
def tlOk (r : Except String (TLState × List TLEvent)) : Bool :=
  match r with
  | Except.ok _ => true
  | Except.error _ => false

/-- The event trace of a `train_loop` run (empty on the error path:
the size check raises before the epoch loop starts). -/
def tlTrace (r : Except String (TLState × List TLEvent)) : List TLEvent :=
  match r with
  | Except.ok p => p.2
  | Except.error _ => []

/-- The final loop state of a `train_loop` run. -/
def tlState (r : Except String (TLState × List TLEvent)) : TLState :=
  match r with
  | Except.ok p => p.1
  | Except.error _ => initTLState 0

/-- All values recorded for key `k` across a batch list, in order. -/
def occAll (k : String) (batches : List (List (String × ℚ))) : List ℚ :=
  ((batches.flatten).filter (fun kv => kv.1 == k)).map Prod.snd

/-- Folding a list of `(key, value)` pairs into the accumulator
combines the looked-up base entry with the values of that key. -/
def tsCombine (base : Option (ℚ × Nat)) (vs : List ℚ) : Option (ℚ × Nat) :=
  match base with
  | none => if vs = [] then none else some (vs.sum, vs.length)
  | some sc => some (sc.1 + vs.sum, sc.2 + vs.length)

/-- The metric mapping of an `evaluate` outcome (empty on the error
path). -/
def evalMetricsOf (r : Except String EvalOutcome) : List (String × ℚ) :=
  match r with
  | Except.ok o => o.metrics
  | Except.error _ => []

/-- A sample classification model object used as concrete input of the
witnesses: three classes, one parameter of leading dimension 8 and one
of leading dimension 16, a pruner attached, status `'Normal'`. -/
def sampleModel : ModelState :=
  { model_type := "classifier"
    num_classes := 3
    labels := ["cat", "dog", "bird"]
    optimizer := 7
    completed_epochs := 2
    status := Status.Normal
    netMode := Mode.train
    net_params := [{ name := "conv_w", shape := [8, 3] },
                   { name := "fc_w", shape := [16, 3] }]
    pruner := some "L1NormFilterPruner"
    pruner_inputs := [1, 3, 224, 224]
    pruning_ratios := none
    eval_metrics := some [("acc1", 9 / 10)]
    eval_data_loader := none
    has_eval_details := false
    test_inputs := none }

/-- The sample model after a pruning pass (status `'Pruned'`). -/
def samplePrunedModel : ModelState :=
  { sampleModel with status := Status.Pruned }

/-!
## Theorems

First general helper lemmas, then one theorem per claim (with its
witness or counterexample where required).
-/

/-- Claim C4: in every checkpoint written by `save_model` and every
inference artifact written by `_export_inference_model`, the zero-byte
`.success` marker is written strictly after all other artifact files
(weights, optimizer state, metadata, optional eval details and pruning
info, traced graph): it is the last write and occurs nowhere earlier,
so a directory lacking it cannot have been completely written. -/
theorem success_marker_written_last (s : ModelState) (shape : List Int) :
    (save_model_writes s).getLast? = some FileWrite.successMarker ∧
    (∀ w ∈ (save_model_writes s).dropLast, w ≠ FileWrite.successMarker) ∧
    ((export_inference_model s shape).1).getLast? =
      some FileWrite.successMarker ∧
    (∀ w ∈ ((export_inference_model s shape).1).dropLast,
      w ≠ FileWrite.successMarker) := by
  simp only [save_model_writes, export_inference_model]
  split_ifs <;> simp

/-- Claim C9: `_export_inference_model` writes a metadata document
whose status field is forced to `'Infer'` (every `model.yml` it emits
carries `Infer`), adds `prune.yml` exactly when the model is pruned,
ends with its own success marker, and leaves the status of the live
model object unchanged (`Infer` is never assigned to `self.status`). -/
theorem export_status_isolation (s : ModelState) (shape : List Int) :
    ((export_inference_model s shape).2).status = s.status ∧
    (∀ info st, FileWrite.modelYml info st ∈ (export_inference_model s shape).1
      → st = Status.Infer) ∧
    (∃ info, FileWrite.modelYml info Status.Infer ∈
      (export_inference_model s shape).1) ∧
    ((export_inference_model s shape).1).getLast? =
      some FileWrite.successMarker ∧
    (s.status = Status.Pruned ↔
      ∃ pi, FileWrite.pruneYml pi ∈ (export_inference_model s shape).1) := by
  simp only [export_inference_model]
  split_ifs with h <;> simp_all

/-- Claim C5: calling `prune` on a model whose status is already
`'Pruned'` raises the double-pruning error for every target FLOPs
ratio, before any FLOPs computation or pruning work (empty event
trace), and leaves the model object unchanged. -/
theorem no_double_pruning (s : ModelState) (pruned_flops : ℚ)
    (save_dir : Option String)
    (ratiosOf : List String → List (String × ℚ))
    (h : s.status = Status.Pruned) :
    prune s pruned_flops save_dir ratiosOf =
      ([], s, some "A pruned model cannot be done model pruning again!") := by
  unfold prune
  simp [h]

/-- Witness for C5: the sample pruned model, target ratio one half. -/
theorem no_double_pruning_witness :
    samplePrunedModel.status = Status.Pruned ∧
    prune samplePrunedModel ((1 : ℚ) / 2) none (fun _ => []) =
      ([], samplePrunedModel,
       some "A pruned model cannot be done model pruning again!") :=
  ⟨rfl, no_double_pruning samplePrunedModel ((1 : ℚ) / 2) none (fun _ => []) rfl⟩

/-- Claim C8: `evaluate` is re-entrant with respect to the spec-level
`TrainingState`: for every model object, dataset, batch size,
`return_details` flag and batch-output sequence, the completed-epoch
count, the optimizer reference, and the `train_loop` locals (best
metric value and epoch, early-stop counter — which `evaluate` cannot
even reference) are identical before and after the call, on the normal
path and on the loader-failure path alike. -/
theorem evaluate_reentrant_training_state (nranks : Nat) (s : ModelState)
    (eval_dataset : Dataset) (batch_size : Nat) (return_details : Bool)
    (batchOutputs : List (List (String × ℚ))) (loc : LoopLocals) :
    trainingStateOf
      (evaluate nranks s eval_dataset batch_size return_details
        batchOutputs).1 loc = trainingStateOf s loc := by
  unfold evaluate
  cases build_data_loader nranks eval_dataset batch_size Mode.eval <;>
    simp [trainingStateOf]

/-- Counterexample to claim C2 as stated: with two workers, a dataset
of 6 samples and a total batch size of 8, the effective per-worker
batch size is 4 ≤ 6, yet `train_loop` raises the size-precondition
error — the train-mode check compares the sample count against the
*total* batch size, not the per-worker one. -/
theorem dataset_size_precondition_cex :
    get_single_card_bs 2 8 ≤ 6 ∧
    train_loop 2
      { num_epochs := 1, save_interval_epochs := 1, localRank := 0,
        early_stop := false, evalSamples := none }
      { num_samples := 6, shuffle := true, num_workers := 0 } 8
      (fun _ => 0) (fun _ => false) 0 =
      Except.error "The volume of datset must be larger than batch size." :=
  ⟨by decide, rfl⟩

/-- Claim C2 (amended): `train_loop` raises the size-precondition
error exactly when the training dataset has fewer samples than the
*total* (cross-worker) batch size — for a single worker this is the
per-worker batch size — and on that path it fails while building the
training data loader, before the epoch loop produces any event (the
run returns no state and no trace). -/
theorem dataset_size_precondition_total_batch (nranks : Nat)
    (cfg : TLConfig) (train_dataset : Dataset) (train_batch_size : Nat)
    (metricAt : Nat → ℚ) (esStop : Nat → Bool) (completed : Nat) :
    ((∃ e, train_loop nranks cfg train_dataset train_batch_size metricAt
        esStop completed = Except.error e) ↔
      train_dataset.num_samples < train_batch_size) ∧
    (train_dataset.num_samples < train_batch_size →
      train_loop nranks cfg train_dataset train_batch_size metricAt
        esStop completed =
        Except.error "The volume of datset must be larger than batch size.") := by
  unfold train_loop build_data_loader
  by_cases h : train_dataset.num_samples < train_batch_size <;> simp [h]

/-- Counterexample to claim C7 as stated: a parameter of leading
dimension exactly 8 is *not* below the minimum width 8, yet `prune`
puts it on the skip list (the source tests `param.shape[0] <= 8`).
The sample model has `conv_w` with shape `[8, 3]`. -/
theorem prune_skip_threshold_cex :
    (sampleModel.net_params.map Param.shape).map (fun l => l.headD 0) =
      [8, 16] ∧
    ¬ (8 : Nat) < 8 ∧
    PruneEvent.applyPrune ["conv_w"] ∈
      (prune sampleModel 1 none (fun _ => [])).1 := by
  refine ⟨rfl, by decide, ?_⟩
  simp [prune, sampleModel]

/-- Claim C7 (amended): on every non-pruned model, `prune` excludes
from pruning eligibility exactly those network parameters whose
leading dimension is at most 8 (the source uses `<= 8`, so dimension
8 itself is excluded); all other parameters stay eligible. -/
theorem prune_skip_at_most_eight (s : ModelState) (pruned_flops : ℚ)
    (save_dir : Option String)
    (ratiosOf : List String → List (String × ℚ))
    (h : s.status ≠ Status.Pruned) :
    ∃ skip, PruneEvent.applyPrune skip ∈
        (prune s pruned_flops save_dir ratiosOf).1 ∧
      ∀ nm, nm ∈ skip ↔
        ∃ p ∈ s.net_params, p.name = nm ∧ p.shape.headD 0 ≤ 8 := by
  unfold prune
  rw [if_neg h]
  refine ⟨(s.net_params.filter (fun p => p.shape.headD 0 ≤ 8)).map Param.name,
    by simp, ?_⟩
  intro nm
  simp only [List.mem_map, List.mem_filter, decide_eq_true_eq]
  constructor
  · rintro ⟨p, ⟨hp, hle⟩, rfl⟩
    exact ⟨p, hp, rfl, hle⟩
  · rintro ⟨p, hp, rfl, hle⟩
    exact ⟨p, ⟨hp, hle⟩, rfl⟩

/-- Witness for C7: the sample model. Of its two parameters, shapes
`[8, 3]` and `[16, 3]`, exactly `conv_w` is excluded. -/
theorem prune_skip_at_most_eight_witness :
    sampleModel.status ≠ Status.Pruned ∧
    ∃ skip, PruneEvent.applyPrune skip ∈
        (prune sampleModel 1 none (fun _ => [])).1 ∧
      ∀ nm, nm ∈ skip ↔
        ∃ p ∈ sampleModel.net_params, p.name = nm ∧ p.shape.headD 0 ≤ 8 :=
  ⟨by decide,
   prune_skip_at_most_eight sampleModel 1 none (fun _ => []) (by decide)⟩

/-- With early stopping disabled the epoch-loop body never signals a
break. -/
theorem epochStep_stop_false (cfg : TLConfig) (metricAt : Nat → ℚ)
    (esStop : Nat → Bool) (i : Nat) (st : TLState)
    (h : cfg.early_stop = false) :
    (epochStep cfg metricAt esStop i st).2.2 = false := by
  unfold epochStep
  cases hs : cfg.evalSamples <;> split_ifs <;> simp_all

/-- The epoch-loop body increments the completed-epoch counter by
exactly one. -/
theorem epochStep_completed (cfg : TLConfig) (metricAt : Nat → ℚ)
    (esStop : Nat → Bool) (i : Nat) (st : TLState) :
    (epochStep cfg metricAt esStop i st).1.completed_epochs =
      st.completed_epochs + 1 := by
  unfold epochStep
  cases hs : cfg.evalSamples <;> split_ifs <;> simp_all <;>
    split_ifs <;> simp_all

/-- The epoch-loop body emits exactly one `finishEpoch` event, for its
own epoch, carrying the incremented counter. -/
theorem epochStep_finish (cfg : TLConfig) (metricAt : Nat → ℚ)
    (esStop : Nat → Bool) (i : Nat) (st : TLState) :
    finishEvents (epochStep cfg metricAt esStop i st).2.1 =
      [(i, st.completed_epochs + 1)] := by
  unfold epochStep
  cases hs : cfg.evalSamples <;> split_ifs <;> simp_all [finishEvents] <;>
    split_ifs <;> simp_all

/-- `finishEvents` distributes over trace concatenation. -/
theorem finishEvents_append (a b : List TLEvent) :
    finishEvents (a ++ b) = finishEvents a ++ finishEvents b := by
  simp [finishEvents]

/-- With early stopping disabled, running the epoch loop over the
epochs `a, a+1, …, a+n-1` from a state whose counter is `a` ends with
counter `a + n` and finishes exactly those epochs in order, each
incrementing the counter by one. -/
theorem runEpochs_range' (cfg : TLConfig) (metricAt : Nat → ℚ)
    (esStop : Nat → Bool) (h : cfg.early_stop = false) :
    ∀ (n a : Nat) (st : TLState), st.completed_epochs = a →
      ((runEpochs cfg metricAt esStop (List.range' a n) st).1.completed_epochs
        = a + n) ∧
      (finishEvents (runEpochs cfg metricAt esStop (List.range' a n) st).2 =
        (List.range' a n).map (fun i => (i, i + 1))) := by
  intro n
  induction n with
  | zero =>
    intro a st hst
    simp [runEpochs, finishEvents, hst]
  | succ n ih =>
    intro a st hst
    rw [List.range'_succ]
    have hstop := epochStep_stop_false cfg metricAt esStop a st h
    have hc := epochStep_completed cfg metricAt esStop a st
    rw [hst] at hc
    obtain ⟨ih1, ih2⟩ := ih (a + 1) (epochStep cfg metricAt esStop a st).1 hc
    simp only [runEpochs, hstop, Bool.false_eq_true, if_false]
    constructor
    · rw [ih1]; omega
    · rw [finishEvents_append, epochStep_finish cfg metricAt esStop a st, hst,
        ih2, List.map_cons, List.singleton_append]

/-- Claim C3: resuming `train_loop` from a completed-epoch count `K`
with requested `epochs = N > K` (early stopping disabled, dataset at
least as large as the batch size) iterates exactly the epochs
`K, K+1, …, N-1` — `N - K` of them, not `N` — and the completed-epoch
counter is incremented by exactly one at the end of each epoch
(finishing epoch `i` sets it to `i + 1`, ending at `N`). -/
theorem resume_runs_exactly_remaining_epochs (nranks : Nat)
    (cfg : TLConfig) (train_dataset : Dataset) (train_batch_size : Nat)
    (metricAt : Nat → ℚ) (esStop : Nat → Bool) (K : Nat)
    (hes : cfg.early_stop = false) (hKN : K < cfg.num_epochs)
    (hbs : train_batch_size ≤ train_dataset.num_samples) :
    tlOk (train_loop nranks cfg train_dataset train_batch_size metricAt
      esStop K) = true ∧
    finishEvents (tlTrace (train_loop nranks cfg train_dataset
      train_batch_size metricAt esStop K)) =
      (List.range' K (cfg.num_epochs - K)).map (fun i => (i, i + 1)) ∧
    (tlState (train_loop nranks cfg train_dataset train_batch_size metricAt
      esStop K)).completed_epochs = cfg.num_epochs := by
  have hmain := runEpochs_range' cfg metricAt esStop hes
    (cfg.num_epochs - K) K (initTLState K) rfl
  unfold train_loop build_data_loader
  rw [if_neg (by simpa using Nat.not_lt.mpr hbs)]
  refine ⟨rfl, ?_, ?_⟩
  · exact hmain.2
  · rw [show ∀ p : TLState × List TLEvent, tlState (Except.ok p) = p.1
        from fun p => rfl]
    rw [hmain.1]; omega

/-- Witness for C3: resuming from `K = 2` with `epochs = 5` runs
exactly the three epochs 2, 3, 4, counting 3, 4, 5. -/
theorem resume_runs_exactly_remaining_epochs_witness :
    tlOk (train_loop 1
      { num_epochs := 5, save_interval_epochs := 2, localRank := 0,
        early_stop := false, evalSamples := some 10 }
      { num_samples := 100, shuffle := true, num_workers := 0 } 10
      (fun i => ([5, 5, 6, 4, 2] : List ℚ).getD i 0) (fun _ => false) 2)
      = true ∧
    finishEvents (tlTrace (train_loop 1
      { num_epochs := 5, save_interval_epochs := 2, localRank := 0,
        early_stop := false, evalSamples := some 10 }
      { num_samples := 100, shuffle := true, num_workers := 0 } 10
      (fun i => ([5, 5, 6, 4, 2] : List ℚ).getD i 0) (fun _ => false) 2)) =
      (List.range' 2 (5 - 2)).map (fun i => (i, i + 1)) ∧
    TLState.completed_epochs (tlState (train_loop 1
      { num_epochs := 5, save_interval_epochs := 2, localRank := 0,
        early_stop := false, evalSamples := some 10 }
      { num_samples := 100, shuffle := true, num_workers := 0 } 10
      (fun i => ([5, 5, 6, 4, 2] : List ℚ).getD i 0) (fun _ => false) 2))
      = 5 :=
  resume_runs_exactly_remaining_epochs 1
    { num_epochs := 5, save_interval_epochs := 2, localRank := 0,
      early_stop := false, evalSamples := some 10 }
    { num_samples := 100, shuffle := true, num_workers := 0 } 10
    (fun i => ([5, 5, 6, 4, 2] : List ℚ).getD i 0) (fun _ => false) 2
    rfl (by decide) (by decide)

/-- Closed form of the epoch-loop body on rank 0 with save interval 1,
early stopping disabled and a non-empty evaluation set: every epoch
evaluates, and the best-model save fires exactly on strict improvement
over `best_accuracy`. -/
theorem epochStep_rank0_eval (cfg : TLConfig) (m : Nat → ℚ)
    (es : Nat → Bool) (i : Nat) (st : TLState) (nsmp : Nat)
    (hrank : cfg.localRank = 0) (hint : cfg.save_interval_epochs = 1)
    (hes : cfg.early_stop = false) (heval : cfg.evalSamples = some nsmp)
    (hn : 0 < nsmp) :
    epochStep cfg m es i st =
      if st.best_accuracy < m i then
        ({ completed_epochs := st.completed_epochs + 1, best_accuracy := m i,
           best_model_epoch := (i : Int) + 1, eval_metrics := some (m i) },
         [TLEvent.finishEpoch i (st.completed_epochs + 1),
          TLEvent.evalRun i (m i), TLEvent.saveBest (i + 1),
          TLEvent.saveEpoch (i + 1)], false)
      else
        ({ st with completed_epochs := st.completed_epochs + 1,
                   eval_metrics := some (m i) },
         [TLEvent.finishEpoch i (st.completed_epochs + 1),
          TLEvent.evalRun i (m i), TLEvent.saveEpoch (i + 1)], false) := by
  unfold epochStep
  rw [hint, hrank, heval, hes]
  simp only [Nat.mod_one, true_or, if_true, hn, if_pos, Option.isSome_some,
    Bool.true_and, Bool.and_false, Bool.false_and]
  split_ifs <;> simp

/-- Membership of best-model saves in the epoch-loop trace, on rank 0
with save interval 1, early stopping disabled and a non-empty
evaluation set: a best-model checkpoint for epoch `i + 1` is written
iff `i` lies in the processed range and its metric strictly exceeds
the incoming best value and every metric evaluated earlier in the
range. -/
theorem saveBest_mem_runEpochs (cfg : TLConfig) (m : Nat → ℚ)
    (es : Nat → Bool) (nsmp : Nat)
    (hrank : cfg.localRank = 0) (hint : cfg.save_interval_epochs = 1)
    (hes : cfg.early_stop = false) (heval : cfg.evalSamples = some nsmp)
    (hn : 0 < nsmp) :
    ∀ (n a : Nat) (st : TLState) (i : Nat),
      TLEvent.saveBest (i + 1) ∈ (runEpochs cfg m es (List.range' a n) st).2 ↔
        (a ≤ i ∧ i < a + n ∧ st.best_accuracy < m i ∧
          ∀ j, a ≤ j → j < i → m j < m i) := by
  intro n
  induction n with
  | zero =>
    intro a st i
    simp only [List.range'_zero, runEpochs, List.not_mem_nil, false_iff]
    intro hcon
    omega
  | succ n ih =>
    intro a st i
    rw [List.range'_succ]
    simp only [runEpochs,
      epochStep_rank0_eval cfg m es a st nsmp hrank hint hes heval hn]
    by_cases hlt : st.best_accuracy < m a
    · rw [if_pos hlt]
      simp only [Bool.false_eq_true, if_false, List.append_assoc,
        List.mem_append, List.mem_cons, List.not_mem_nil, or_false,
        reduceCtorEq, false_or, TLEvent.saveBest.injEq, Nat.add_right_cancel_iff]
      rw [ih (a + 1) _ i]
      constructor
      · rintro (rfl | ⟨h1, h2, h3, h4⟩)
        · exact ⟨by omega, by omega, hlt, fun j hj1 hj2 => by omega⟩
        · refine ⟨by omega, by omega, lt_trans hlt h3, ?_⟩
          intro j hj1 hj2
          rcases Nat.eq_or_lt_of_le hj1 with rfl | hj
          · exact h3
          · exact h4 j hj hj2
      · rintro ⟨h1, h2, h3, h4⟩
        rcases Nat.eq_or_lt_of_le h1 with rfl | hi
        · exact Or.inl rfl
        · refine Or.inr ⟨hi, by omega, h4 a (by omega) hi, ?_⟩
          intro j hj1 hj2
          exact h4 j (by omega) hj2
    · rw [if_neg hlt]
      simp only [Bool.false_eq_true, if_false, List.append_assoc,
        List.mem_append, List.mem_cons, List.not_mem_nil, or_false,
        reduceCtorEq, false_or]
      rw [ih (a + 1) _ i]
      constructor
      · rintro ⟨h1, h2, h3, h4⟩
        refine ⟨by omega, by omega, h3, ?_⟩
        intro j hj1 hj2
        rcases Nat.eq_or_lt_of_le hj1 with rfl | hj
        · exact lt_of_le_of_lt (not_lt.mp hlt) h3
        · exact h4 j hj hj2
      · rintro ⟨h1, h2, h3, h4⟩
        have hia : a ≠ i := by
          rintro rfl
          exact hlt h3
        refine ⟨by omega, by omega, h3, ?_⟩
        intro j hj1 hj2
        exact h4 j (by omega) hj2

/-- Claim C1: during `train_loop` (rank 0, save interval 1, early
stopping disabled, non-empty evaluation set, dataset at least as large
as the batch size), after each evaluation the primary metric is
compared against the best value seen so far, and the best-model
checkpoint (the `saveBest` event, targeting the fixed `best_model`
directory) is written for epoch `i + 1` exactly when the value of
evaluation `i` strictly exceeds every previously seen value.  The
hypothesis `-1 < m i` reflects that the primary metric is an accuracy
in `[0, 1]`, above the `-1.0` sentinel the loop starts from. -/
theorem best_model_strictly_greater (nranks : Nat) (cfg : TLConfig)
    (train_dataset : Dataset) (train_batch_size : Nat) (m : Nat → ℚ)
    (es : Nat → Bool) (K : Nat) (nsmp : Nat)
    (hrank : cfg.localRank = 0) (hint : cfg.save_interval_epochs = 1)
    (hes : cfg.early_stop = false) (heval : cfg.evalSamples = some nsmp)
    (hn : 0 < nsmp) (hbs : train_batch_size ≤ train_dataset.num_samples)
    (hm : ∀ i, -1 < m i) :
    ∀ i, TLEvent.saveBest (i + 1) ∈
        tlTrace (train_loop nranks cfg train_dataset train_batch_size m es K)
      ↔ (K ≤ i ∧ i < cfg.num_epochs ∧
          ∀ j, K ≤ j → j < i → m j < m i) := by
  intro i
  unfold train_loop build_data_loader
  rw [if_neg (by simpa using Nat.not_lt.mpr hbs)]
  show TLEvent.saveBest (i + 1) ∈
      (runEpochs cfg m es (List.range' K (cfg.num_epochs - K))
        (initTLState K)).2 ↔ _
  rw [saveBest_mem_runEpochs cfg m es nsmp hrank hint hes heval hn
    (cfg.num_epochs - K) K (initTLState K) i]
  unfold initTLState
  constructor
  · rintro ⟨h1, h2, _, h4⟩
    exact ⟨h1, by omega, h4⟩
  · rintro ⟨h1, h2, h4⟩
    exact ⟨h1, by omega, hm i, h4⟩

/-- Witness for C1: for the evaluation sequence
`[0.5, 0.5, 0.6, 0.4]` over four epochs, the best-model checkpoint is
written at occurrences 1 and 3 only. -/
theorem best_model_strictly_greater_witness :
    TLEvent.saveBest 1 ∈ tlTrace (train_loop 1
      { num_epochs := 4, save_interval_epochs := 1, localRank := 0,
        early_stop := false, evalSamples := some 10 }
      { num_samples := 100, shuffle := true, num_workers := 0 } 10
      (fun i => ([1 / 2, 1 / 2, 3 / 5, 2 / 5] : List ℚ).getD i 0)
      (fun _ => false) 0) ∧
    TLEvent.saveBest 3 ∈ tlTrace (train_loop 1
      { num_epochs := 4, save_interval_epochs := 1, localRank := 0,
        early_stop := false, evalSamples := some 10 }
      { num_samples := 100, shuffle := true, num_workers := 0 } 10
      (fun i => ([1 / 2, 1 / 2, 3 / 5, 2 / 5] : List ℚ).getD i 0)
      (fun _ => false) 0) ∧
    TLEvent.saveBest 2 ∉ tlTrace (train_loop 1
      { num_epochs := 4, save_interval_epochs := 1, localRank := 0,
        early_stop := false, evalSamples := some 10 }
      { num_samples := 100, shuffle := true, num_workers := 0 } 10
      (fun i => ([1 / 2, 1 / 2, 3 / 5, 2 / 5] : List ℚ).getD i 0)
      (fun _ => false) 0) ∧
    TLEvent.saveBest 4 ∉ tlTrace (train_loop 1
      { num_epochs := 4, save_interval_epochs := 1, localRank := 0,
        early_stop := false, evalSamples := some 10 }
      { num_samples := 100, shuffle := true, num_workers := 0 } 10
      (fun i => ([1 / 2, 1 / 2, 3 / 5, 2 / 5] : List ℚ).getD i 0)
      (fun _ => false) 0) := by
  have h := best_model_strictly_greater 1
    { num_epochs := 4, save_interval_epochs := 1, localRank := 0,
      early_stop := false, evalSamples := some 10 }
    { num_samples := 100, shuffle := true, num_workers := 0 } 10
    (fun i => ([1 / 2, 1 / 2, 3 / 5, 2 / 5] : List ℚ).getD i 0)
    (fun _ => false) 0 10 rfl rfl rfl rfl (by norm_num) (by norm_num)
    (by
      intro i
      match i with
      | 0 => norm_num
      | 1 => norm_num
      | 2 => norm_num
      | 3 => norm_num
      | n + 4 => norm_num [List.getD])
  refine ⟨(h 0).mpr ⟨by decide, by decide, fun j h1 h2 => by omega⟩,
    (h 2).mpr ⟨by decide, by decide, fun j h1 h2 => ?_⟩, fun hmem => ?_, fun hmem => ?_⟩
  · interval_cases j <;> norm_num
  · obtain ⟨_, _, hall⟩ := (h 1).mp hmem
    have := hall 0 (by omega) (by omega)
    norm_num at this
  · obtain ⟨_, _, hall⟩ := (h 3).mp hmem
    have := hall 2 (by omega) (by omega)
    norm_num at this

/-- Folding one value into the accumulator updates the looked-up entry
of its key and leaves every other key alone. -/
theorem tsLookup_tsAdd (k k0 : String) (v : ℚ)
    (st : List (String × ℚ × Nat)) :
    tsLookup k (tsAdd st k0 v) =
      if k0 = k then
        match tsLookup k st with
        | none => some (v, 1)
        | some sc => some (sc.1 + v, sc.2 + 1)
      else tsLookup k st := by
  induction st with
  | nil =>
    by_cases h : k0 = k <;> simp [tsAdd, tsLookup, h]
  | cons hd tl ih =>
    obtain ⟨k1, s1, c1⟩ := hd
    by_cases h10 : k1 = k0 <;> by_cases h1k : k1 = k <;>
      simp_all [tsAdd, tsLookup] <;>
      rw [if_neg (fun h => h10 h.symm)]

/-- Folding a list of key-value pairs into the accumulator combines
each key's looked-up entry with the sum and count of that key's
values in the list. -/
theorem tsLookup_foldPairs (k : String) :
    ∀ (l : List (String × ℚ)) (st : List (String × ℚ × Nat)),
      tsLookup k (l.foldl (fun acc kv => tsAdd acc kv.1 kv.2) st) =
        tsCombine (tsLookup k st)
          ((l.filter (fun kv => kv.1 == k)).map Prod.snd) := by
  intro l
  induction l with
  | nil =>
    intro st
    cases hst : tsLookup k st <;> simp [tsCombine, hst]
  | cons hd tl ih =>
    intro st
    obtain ⟨k0, v⟩ := hd
    rw [List.foldl_cons, ih, tsLookup_tsAdd]
    by_cases hk : k0 = k
    · rw [if_pos hk, List.filter_cons_of_pos (by simp [hk]), List.map_cons]
      cases hst : tsLookup k st with
      | none =>
        simp [tsCombine, Nat.add_comm]
      | some sc =>
        simp only [tsCombine, List.sum_cons, List.length_cons,
          List.length_map, Option.some.injEq, Prod.mk.injEq]
        exact ⟨by ring, by omega⟩
    · rw [if_neg hk,
        List.filter_cons_of_neg (by simp [hk])]

/-- Folding whole batches with `tsUpdate` equals folding the flattened
pair list. -/
theorem tsUpdate_foldl_flatten :
    ∀ (batches : List (List (String × ℚ))) (st : List (String × ℚ × Nat)),
      batches.foldl tsUpdate st =
        (batches.flatten).foldl (fun acc kv => tsAdd acc kv.1 kv.2) st := by
  intro batches
  induction batches with
  | nil => intro st; rfl
  | cons b bs ih =>
    intro st
    rw [List.foldl_cons, List.flatten_cons, List.foldl_append, ih]
    rfl

/-- Looking a key up in the reported means is the looked-up
sum-and-count entry turned into a mean. -/
theorem metricLookup_tsGet (k : String) (st : List (String × ℚ × Nat)) :
    metricLookup k (tsGet st) =
      (tsLookup k st).map (fun sc => sc.1 / (sc.2 : ℚ)) := by
  induction st with
  | nil => rfl
  | cons hd tl ih =>
    obtain ⟨k0, s0, c0⟩ := hd
    by_cases hk : k0 = k <;> simp [tsGet, metricLookup, tsLookup, hk, ih] <;>
      exact ih

/-- Counterexample to claim C6 as stated: `build_data_loader` passes
the dataset's own shuffle flag through (`shuffle=dataset.shuffle`,
base.py:180), so evaluating on a dataset whose shuffle flag is set
yields an evaluation loader that *does* shuffle. -/
theorem eval_loader_shuffle_cex :
    (evaluate 1 sampleModel
      { num_samples := 4, shuffle := true, num_workers := 0 } 2 false
      []).1.eval_data_loader =
      some { batch_size_each_card := 2, shuffle := true, drop_last := false,
             num_workers := 0 } := rfl

/-- Claim C6 (amended): for every call to `evaluate` whose per-card
batch size fits the dataset, the evaluation data loader takes its
shuffle flag from the dataset (so there is no shuffling exactly when
the evaluation dataset does not itself request it — the code does not
force it off) and never drops the final partial batch; the network is
switched to inference mode; every batch runs under the
no-gradient-tracking scope in eval mode; and the returned metrics are
the per-key means aggregated over all batches. -/
theorem eval_loader_flags_and_aggregation (nranks : Nat) (s : ModelState)
    (eval_dataset : Dataset) (batch_size : Nat) (return_details : Bool)
    (batchOutputs : List (List (String × ℚ)))
    (hbs : get_single_card_bs nranks batch_size ≤ eval_dataset.num_samples) :
    ∃ loader,
      (evaluate nranks s eval_dataset batch_size return_details
        batchOutputs).1.eval_data_loader = some loader ∧
      loader.shuffle = eval_dataset.shuffle ∧
      loader.drop_last = false ∧
      (evaluate nranks s eval_dataset batch_size return_details
        batchOutputs).1.netMode = Mode.eval ∧
      ((evaluate nranks s eval_dataset batch_size return_details
        batchOutputs).2.1).length = batchOutputs.length ∧
      (∀ r ∈ (evaluate nranks s eval_dataset batch_size return_details
        batchOutputs).2.1, r.noGrad = true ∧ r.mode = Mode.eval) ∧
      (∀ k, occAll k batchOutputs ≠ [] →
        metricLookup k (evalMetricsOf
          (evaluate nranks s eval_dataset batch_size return_details
            batchOutputs).2.2) =
          some ((occAll k batchOutputs).sum /
            ((occAll k batchOutputs).length : ℚ))) := by
  have hnot : ¬ (eval_dataset.num_samples < get_single_card_bs nranks batch_size) :=
    Nat.not_lt.mpr hbs
  have hloader : build_data_loader nranks eval_dataset batch_size Mode.eval =
      Except.ok { batch_size_each_card := get_single_card_bs nranks batch_size,
                  shuffle := eval_dataset.shuffle, drop_last := false,
                  num_workers := eval_dataset.num_workers } := by
    simp [build_data_loader, hnot]
  unfold evaluate
  rw [hloader]
  refine ⟨_, rfl, rfl, rfl, rfl, by simp, ?_, ?_⟩
  · intro r hr
    simp only [List.mem_map] at hr
    obtain ⟨_, _, rfl⟩ := hr
    exact ⟨rfl, rfl⟩
  · intro k hocc
    show metricLookup k (tsGet (batchOutputs.foldl tsUpdate [])) = _
    rw [metricLookup_tsGet, tsUpdate_foldl_flatten, tsLookup_foldPairs]
    show Option.map _ (tsCombine none (occAll k batchOutputs)) = _
    simp [tsCombine, hocc]

/-- Witness for C6: one worker, four samples, batch size 2, two
batches reporting `acc1 = 1` and `acc1 = 2`; the aggregate is the mean
`3 / 2` and the loader flags are as amended. -/
theorem eval_loader_flags_and_aggregation_witness :
    get_single_card_bs 1 2 ≤ 4 ∧
    ((evaluate 1 sampleModel
        { num_samples := 4, shuffle := false, num_workers := 0 } 2 false
        [[("acc1", 1)], [("acc1", 2)]]).1.eval_data_loader).map
      LoaderCfg.shuffle = some false ∧
    ((evaluate 1 sampleModel
        { num_samples := 4, shuffle := false, num_workers := 0 } 2 false
        [[("acc1", 1)], [("acc1", 2)]]).1.eval_data_loader).map
      LoaderCfg.drop_last = some false ∧
    (evaluate 1 sampleModel
        { num_samples := 4, shuffle := false, num_workers := 0 } 2 false
        [[("acc1", 1)], [("acc1", 2)]]).1.netMode = Mode.eval ∧
    metricLookup "acc1" (evalMetricsOf
      (evaluate 1 sampleModel
        { num_samples := 4, shuffle := false, num_workers := 0 } 2 false
        [[("acc1", 1)], [("acc1", 2)]]).2.2) = some (3 / 2) := by
  obtain ⟨loader, h1, h2, h3, h4, h5, h6, h7⟩ :=
    eval_loader_flags_and_aggregation 1 sampleModel
      { num_samples := 4, shuffle := false, num_workers := 0 } 2 false
      [[("acc1", 1)], [("acc1", 2)]] (by decide)
  refine ⟨by decide, ?_, ?_, h4, ?_⟩
  · rw [h1]; simp [h2]
  · rw [h1]; simp [h3]
  · rw [h7 "acc1" (by decide)]
    norm_num [occAll]

/-- `argsortDesc` is a permutation of the index range. -/
theorem argsortDesc_perm (scores : List ℚ) :
    List.Perm (argsortDesc scores) (List.range scores.length) := by
  unfold argsortDesc
  exact (List.reverse_perm _).trans (List.perm_insertionSort _ _)

/-- `argsortDesc` is sorted by descending score (with the index tie
break in reverse). -/
theorem argsortDesc_sorted (scores : List ℚ) :
    List.Pairwise (fun i j => idxLe scores j i) (argsortDesc scores) := by
  unfold argsortDesc
  rw [List.pairwise_reverse]
  exact List.sorted_insertionSort (idxLe scores) (List.range scores.length)

/-- The index comparison implies the score comparison. -/
theorem idxLe_score_le {scores : List ℚ} {i j : Nat} (h : idxLe scores i j) :
    scores.getD i 0 ≤ scores.getD j 0 := by
  rcases h with h | ⟨h, _⟩
  · exact le_of_lt h
  · exact le_of_eq h

/-- The category ids of a postprocessed row are exactly the first
`k` entries of the descending argsort. -/
theorem postprocessOne_ids (scores : List ℚ) (k : Nat)
    (labels : List String) :
    (postprocessOne scores k labels).map PredEntry.category_id =
      (argsortDesc scores).take k := by
  unfold postprocessOne
  rw [List.map_map]
  exact List.map_id _

/-- Specification of `_postprocess` on one row of the prediction
matrix: the result has exactly `min k n` entries (for `n` scores),
lists pairwise-distinct category ids below `n` with their own scores
and labels, in non-increasing score order, and every unlisted category
scores no higher than every listed entry. -/
theorem postprocessOne_spec (scores : List ℚ) (k : Nat)
    (labels : List String) :
    (postprocessOne scores k labels).length = min k scores.length ∧
    List.Pairwise (fun e1 e2 : PredEntry => e2.score ≤ e1.score)
      (postprocessOne scores k labels) ∧
    ((postprocessOne scores k labels).map PredEntry.category_id).Nodup ∧
    (∀ e ∈ postprocessOne scores k labels,
      e.category_id < scores.length ∧
      e.score = scores.getD e.category_id 0 ∧
      e.category = labels.getD e.category_id "") ∧
    (∀ j, j < scores.length →
      j ∉ (postprocessOne scores k labels).map PredEntry.category_id →
      ∀ e ∈ postprocessOne scores k labels,
        scores.getD j 0 ≤ e.score) := by
  have hlen : (argsortDesc scores).length = scores.length :=
    (argsortDesc_perm scores).length_eq.trans (List.length_range _)
  have hmem : ∀ i, i ∈ argsortDesc scores ↔ i < scores.length := by
    intro i
    rw [(argsortDesc_perm scores).mem_iff, List.mem_range]
  have hsorted := argsortDesc_sorted scores
  have hsplit := List.take_append_drop k (argsortDesc scores)
  have hcross : ∀ x ∈ (argsortDesc scores).take k,
      ∀ y ∈ (argsortDesc scores).drop k, idxLe scores y x := by
    have h2 := hsorted
    rw [← hsplit, List.pairwise_append] at h2
    exact h2.2.2
  refine ⟨?_, ?_, ?_, ?_, ?_⟩
  · unfold postprocessOne
    rw [List.length_map, List.length_take, hlen]
  · unfold postprocessOne
    rw [List.pairwise_map]
    exact ((hsorted.sublist (List.take_sublist k _)).imp
      (fun h => idxLe_score_le h))
  · rw [postprocessOne_ids]
    exact ((argsortDesc_perm scores).symm.nodup_iff.mp
      (List.nodup_range _)).sublist (List.take_sublist k _)
  · intro e he
    unfold postprocessOne at he
    rw [List.mem_map] at he
    obtain ⟨l, hl, rfl⟩ := he
    have hl2 : l ∈ argsortDesc scores := (List.take_sublist k _).mem hl
    exact ⟨(hmem l).mp hl2, rfl, rfl⟩
  · intro j hj hnot e he
    unfold postprocessOne at he
    rw [List.mem_map] at he
    obtain ⟨l, hl, rfl⟩ := he
    rw [postprocessOne_ids] at hnot
    have hjmem : j ∈ argsortDesc scores := (hmem j).mpr hj
    have hjdrop : j ∈ (argsortDesc scores).drop k := by
      rcases (List.mem_append.mp (by rw [hsplit]; exact hjmem)) with h | h
      · exact absurd h hnot
      · exact h
    exact idxLe_score_le (hcross l hl j hjdrop)

/-- Claim C10: `predict` clamps the requested `topk` to the class
count (effective top-k `min num_classes topk`) and its result shape
follows the input shape: a single image yields a single per-image
result, a list yields one result per image in order.  Each per-image
result holds exactly the effective-top-k highest-scoring categories of
that image in non-increasing score order: `min num_classes topk`
pairwise-distinct category ids below `num_classes`, each paired with
its own score and label, and no category outside the result scores
higher than any listed entry. -/
theorem predict_topk_clamped_shape {α : Type} (num_classes : Nat)
    (labels : List String) (netScores : α → List ℚ) (topk : Nat)
    (h : ∀ im, (netScores im).length = num_classes) :
    (∀ img, ∃ r,
      predict num_classes labels netScores (PredictInput.single img) topk =
        PredictOutput.one r ∧
      r.length = min num_classes topk ∧
      List.Pairwise (fun e1 e2 : PredEntry => e2.score ≤ e1.score) r ∧
      (r.map PredEntry.category_id).Nodup ∧
      (∀ e ∈ r, e.category_id < num_classes ∧
        e.score = (netScores img).getD e.category_id 0 ∧
        e.category = labels.getD e.category_id "") ∧
      (∀ j, j < num_classes → j ∉ r.map PredEntry.category_id →
        ∀ e ∈ r, (netScores img).getD j 0 ≤ e.score)) ∧
    (∀ imgs, ∃ rs,
      predict num_classes labels netScores (PredictInput.batch imgs) topk =
        PredictOutput.many rs ∧
      rs.length = imgs.length ∧
      List.Forall₂ (fun (r : List PredEntry) im =>
        r.length = min num_classes topk ∧
        List.Pairwise (fun e1 e2 : PredEntry => e2.score ≤ e1.score) r ∧
        (r.map PredEntry.category_id).Nodup ∧
        (∀ e ∈ r, e.category_id < num_classes ∧
          e.score = (netScores im).getD e.category_id 0 ∧
          e.category = labels.getD e.category_id "") ∧
        (∀ j, j < num_classes → j ∉ r.map PredEntry.category_id →
          ∀ e ∈ r, (netScores im).getD j 0 ≤ e.score)) rs imgs) := by
  have hone : ∀ im : α,
      (postprocessOne (netScores im) (min num_classes topk) labels).length
        = min num_classes topk ∧
      List.Pairwise (fun e1 e2 : PredEntry => e2.score ≤ e1.score)
        (postprocessOne (netScores im) (min num_classes topk) labels) ∧
      ((postprocessOne (netScores im) (min num_classes topk) labels).map
        PredEntry.category_id).Nodup ∧
      (∀ e ∈ postprocessOne (netScores im) (min num_classes topk) labels,
        e.category_id < num_classes ∧
        e.score = (netScores im).getD e.category_id 0 ∧
        e.category = labels.getD e.category_id "") ∧
      (∀ j, j < num_classes →
        j ∉ (postprocessOne (netScores im) (min num_classes topk) labels).map
          PredEntry.category_id →
        ∀ e ∈ postprocessOne (netScores im) (min num_classes topk) labels,
          (netScores im).getD j 0 ≤ e.score) := by
    intro im
    have hs := postprocessOne_spec (netScores im) (min num_classes topk) labels
    rw [h im] at hs
    exact ⟨hs.1.trans (by omega), hs.2.1, hs.2.2.1, hs.2.2.2.1, hs.2.2.2.2⟩
  constructor
  · intro img
    exact ⟨postprocessOne (netScores img) (min num_classes topk) labels,
      rfl, hone img⟩
  · intro imgs
    refine ⟨imgs.map
      (fun im => postprocessOne (netScores im) (min num_classes topk) labels),
      rfl, List.length_map _ _, ?_⟩
    rw [List.forall₂_map_left_iff]
    exact List.forall₂_same.mpr (fun im _ => hone im)

/-- Witness for C10: three classes, scores `[2, 9, 1]`, requested
`topk = 5`: the single-image result is one list of `min 3 5 = 3`
entries in descending score order. -/
theorem predict_topk_clamped_shape_witness :
    predict 3 ["a", "b", "c"] (fun _ : Unit => ([2, 9, 1] : List ℚ))
      (PredictInput.single ()) 5 =
      PredictOutput.one [{ category_id := 1, category := "b", score := 9 },
        { category_id := 0, category := "a", score := 2 },
        { category_id := 2, category := "c", score := 1 }] ∧
    ([{ category_id := 1, category := "b", score := 9 },
      { category_id := 0, category := "a", score := 2 },
      { category_id := 2, category := "c", score := 1 }] :
        List PredEntry).length = min 3 5 ∧
    List.Pairwise (fun e1 e2 : PredEntry => e2.score ≤ e1.score)
      [{ category_id := 1, category := "b", score := 9 },
       { category_id := 0, category := "a", score := 2 },
       { category_id := 2, category := "c", score := 1 }] := by
  obtain ⟨r, he, hlen, hpair, hnodup, hD, hE⟩ :=
    (predict_topk_clamped_shape 3 ["a", "b", "c"]
      (fun _ : Unit => ([2, 9, 1] : List ℚ)) 5 (fun _ => rfl)).1 ()
  have hpred : predict 3 ["a", "b", "c"]
      (fun _ : Unit => ([2, 9, 1] : List ℚ)) (PredictInput.single ()) 5 =
      PredictOutput.one [{ category_id := 1, category := "b", score := 9 },
        { category_id := 0, category := "a", score := 2 },
        { category_id := 2, category := "c", score := 1 }] := by decide
  have h2 := he.symm.trans hpred
  injection h2 with hr
  exact ⟨hpred, hr ▸ hlen, hr ▸ hpair⟩

end PaddleX
